import Mathlib

/-!
Verification of the geckolib core: the structure accessor codec
(bit-exact field get/set over the shared Status Buffer), the connect()
handshake wait loop of `GeckoSpa` (src/geckolib/spa.py), and the
AVERS/SVERS version protocol handler
(src/geckolib/driver/protocol/version.py).

The accessor codec implementation (`GeckoStructAccessor`, `GeckoStructure`)
is not part of the available sources; its behaviour is modelled from the
specification (spec.md sections 3 and 4.1) and validated against the
concrete vectors of tests/test_accessor.py, which are reproduced as
theorems below.
-/

namespace Geckolib

/-! ## Byte sequences, big-endian windows, and buffer splicing -/

/-- Big-endian interpretation of a byte list as an unsigned integer. -/
def fromBytesBE (bs : List Nat) : Nat :=
  bs.foldl (fun a b => a * 256 + b) 0

/-- Big-endian serialization of `x` into exactly `n` bytes (truncating
high bits, as Python's manual shift/mask serialization does). -/
def toBytesBE : Nat → Nat → List Nat
  | 0, _ => []
  | n + 1, x => toBytesBE n (x / 256) ++ [x % 256]

/-- Modelled from the spec: `GeckoStructure.replace_status_block_segment`
(the `GeckoStructure` class is not among the available sources).  Section 3:
partial updates are applied as `(offset, bytes)` splices —
`buffer[offset:offset+len(bytes)] = bytes`. -/
def replace_status_block_segment (buf : List Nat) (off : Nat) (data : List Nat) : List Nat :=
  buf.take off ++ data ++ buf.drop (off + data.length)

/-- Read the `n`-byte window starting at byte `off` as a big-endian integer. -/
def readWindow (buf : List Nat) (off n : Nat) : Nat :=
  fromBytesBE ((buf.drop off).take n)

/-- Serialize `x` big-endian into `n` bytes and splice it at byte `off`. -/
def writeWindow (buf : List Nat) (off n : Nat) (x : Nat) : List Nat :=
  replace_status_block_segment buf off (toBytesBE n x)

/-! ## Field descriptors (spec section 3) -/

/-- Field kinds of the structure accessor.  Spec section 3:
`kind ∈ {Byte, Word, Enum, Bool}`. -/
inductive FieldKind where
  | byte
  | word
  | enum
  | bool
deriving DecidableEq, Repr

/-- Modelled from the spec: the immutable field descriptor derived from the
external schema (spec section 3). -/
structure FieldDescriptor where
  name : String
  kind : FieldKind
  byte_offset : Nat
  bit_offset : Option Nat
  bit_width : Option Nat
  item_list : List String
  writable : Bool
deriving DecidableEq, Repr

/-- Least `w` with `n ≤ 2 ^ w`, i.e. `ceil(log2 n)` for `n ≥ 1`. -/
def ceilLog2 (n : Nat) : Nat :=
  (List.range (n + 1)).findIdx (fun w => n ≤ 2 ^ w)

/-- Effective bit width of a field.  Spec sections 3 and 4.1: Bool is
"equivalent to a 1-bit field"; the default `bit_width` for a bit-positioned
Enum, when not explicit, is `ceil(log2(len(item_list)))`; the implied
default for non-bit-packed kinds is 8 or 16. -/
def FieldDescriptor.effBitWidth (f : FieldDescriptor) : Nat :=
  match f.kind with
  | .bool => 1
  | .enum =>
    match f.bit_width with
    | some w => w
    | none => ceilLog2 f.item_list.length
  | .byte =>
    match f.bit_width with
    | some w => w
    | none => 8
  | .word =>
    match f.bit_width with
    | some w => w
    | none => 16

/-- Effective bit offset: spec section 4.1 treats Bool as a 1-bit field at
`bit_offset` (a Bool with no declared bit position addresses bit 0). -/
def FieldDescriptor.effBitPos (f : FieldDescriptor) : Option Nat :=
  match f.kind, f.bit_offset with
  | .bool, none => some 0
  | _, o => o

/-- Number of bytes the field occupies.  Spec section 3 invariant: a
bit-positioned field occupies `ceil((bit_offset+bit_width)/8)` contiguous
bytes starting at `byte_offset`; a plain Word occupies 2 bytes, other
non-bit-positioned kinds 1 byte. -/
def FieldDescriptor.byteSpan (f : FieldDescriptor) : Nat :=
  match f.effBitPos with
  | some o => (o + f.effBitWidth + 7) / 8
  | none =>
    match f.kind with
    | .word => 2
    | _ => 1

/-! ## The codec itself (spec section 4.1, modelled) -/

/-- Error taxonomy of the accessor layer (spec section 7). -/
inductive AccessorError where
  | schemaError
  | permissionError
  | valueError
deriving DecidableEq, Repr

/-- Logical values produced and consumed by the accessor layer. -/
inductive GValue where
  | num (n : Nat)
  | str (s : String)
  | bool (b : Bool)
deriving DecidableEq, Repr

/-- Modelled from the spec: the raw (pre-enum-lookup) integer value of a
field.  Spec section 4.1: read the big-endian window of the field's byte
span, then for bit-positioned fields extract via
`(word >> bit_offset) & ((1 << bit_width) - 1)`. -/
def getRawValue (f : FieldDescriptor) (buf : List Nat) : Nat :=
  let w := readWindow buf f.byte_offset f.byteSpan
  match f.effBitPos with
  | some o => (w >>> o) &&& (2 ^ f.effBitWidth - 1)
  | none => w

/-- First index of `s` in a list, or `none`: the 0-based index an Enum
value resolves to (spec section 4.1). -/
def idxOf? (s : String) : List String → Option Nat
  | [] => none
  | x :: xs => if x = s then some 0 else (idxOf? s xs).map (· + 1)

/-- Modelled from the spec: `get(field, buffer)` of the Struct Field Codec
(spec section 4.1).  Enum indices out of range fail with `SchemaError`. -/
def get (f : FieldDescriptor) (buf : List Nat) : Except AccessorError GValue :=
  match f.kind with
  | .bool => .ok (.bool (getRawValue f buf != 0))
  | .enum =>
    match f.item_list.get? (getRawValue f buf) with
    | some s => .ok (.str s)
    | none => .error .schemaError
  | _ => .ok (.num (getRawValue f buf))

/-- Modelled from the spec: resolve a logical value to the raw integer to
encode.  Spec section 4.1: an Enum value that is not a member of
`item_list` fails with `ValueError`; otherwise it resolves to its 0-based
index. -/
def resolveValue (f : FieldDescriptor) (v : GValue) : Except AccessorError Nat :=
  match f.kind, v with
  | .enum, .str s =>
    match idxOf? s f.item_list with
    | some i => .ok i
    | none => .error .valueError
  | .bool, .bool b => .ok (if b then 1 else 0)
  | .byte, .num n => .ok n
  | .word, .num n => .ok n
  | _, _ => .error .valueError

/-- The read-modify-write combinator on an `n`-byte window value `v`:
clear exactly the bits `[o, o+w)` of `v` (the window holds `8*n` bits, so
clearing is AND with the window mask XOR the field mask, matching Python's
`word & ~(mask << bitpos)` for in-window values), then OR in `i << o`. -/
def rmw (v o w n i : Nat) : Nat :=
  (v &&& ((2 ^ (8 * n) - 1) ^^^ ((2 ^ w - 1) <<< o))) ||| (i <<< o)

/-- Modelled from the spec: the encode-and-splice step of `set`
(spec section 4.1).  Bit-positioned write is read-modify-write: read the
window, clear exactly the bits `[bit_offset, bit_offset+bit_width)`, OR in
`value << bit_offset`, re-serialize big-endian, and splice the full byte
span back.  Non-bit-positioned write serializes the raw value directly. -/
def setRaw (f : FieldDescriptor) (buf : List Nat) (i : Nat) : List Nat :=
  let n := f.byteSpan
  match f.effBitPos with
  | some o =>
    writeWindow buf f.byte_offset n
      (rmw (readWindow buf f.byte_offset n) o f.effBitWidth n i)
  | none => writeWindow buf f.byte_offset n i

/-- Modelled from the spec: `set(field, buffer, value)` of the Struct Field
Codec (spec section 4.1).  Fails with `PermissionError` if the field is not
writable; a failing set performs no buffer mutation.  On success the
returned buffer is the locally spliced Status Buffer. -/
def set (f : FieldDescriptor) (buf : List Nat) (v : GValue) :
    Except AccessorError (List Nat) :=
  if f.writable then
    match resolveValue f v with
    | .ok i => .ok (setRaw f buf i)
    | .error e => .error e
  else
    .error .permissionError

/-! ## The connect() handshake wait loop (src/geckolib/spa.py) -/

/-- State observed by the `GeckoSpa.connect` wait loop.
`had_at_least_one_block` is modelled from the spec (the `GeckoStructure`
class holding it is not among the available sources): it becomes true as
soon as at least one partial-status segment has been merged into the
Status Buffer.  `isopen` is the socket-open flag of the `GeckoUdpSocket`
base class (also absent; it is false once the underlying socket closes).
`accessors_built` records whether `_build_accessors` has run. -/
structure WaitState where
  buffer : List Nat
  had_at_least_one_block : Bool
  isopen : Bool
  is_connected : Bool
  accessors_built : Bool
deriving DecidableEq, Repr

/-- Events delivered to the spa while `connect()` is busy-waiting:
a partialStatus update (a list of `(offset, bytes)` changes, as handed to
`GeckoSpa._on_partial_status_update`), the underlying socket closing, or
any other datagram (which leaves the wait-relevant state untouched). -/
inductive SpaEvent where
  | partialStatus (changes : List (Nat × List Nat))
  | close
  | other
deriving DecidableEq, Repr

/-- Effect of one inbound event on the wait-relevant state.
`GeckoSpa._on_partial_status_update` (spa.py lines 105-107) splices every
`(offset, bytes)` change into the Status Buffer; merging at least one
segment raises `had_at_least_one_block`. -/
def applyEvent (s : WaitState) : SpaEvent → WaitState
  | .partialStatus changes =>
    { s with
      buffer := changes.foldl
        (fun b c => replace_status_block_segment b c.1 c.2) s.buffer,
      had_at_least_one_block :=
        s.had_at_least_one_block || !changes.isEmpty }
  | .close => { s with isopen := false }
  | .other => s

/-- Outcome of the `connect()` wait loop (spa.py lines 228-234). -/
inductive ConnectResult where
  | connected (s : WaitState)
  | failed
  | pending
deriving DecidableEq, Repr

/-- The busy-wait loop of `GeckoSpa.connect` (spa.py lines 230-233):
`while not self.is_connected: if not self.isopen: return;
self.is_connected = self.struct.had_at_least_one_block`.  Between loop
iterations the receive path may deliver one event; `pending` marks the
loop still spinning once the supplied events are exhausted. -/
def connectWait : WaitState → List SpaEvent → ConnectResult
  | s, evs =>
    if s.is_connected then .connected s
    else if !s.isopen then .failed
    else
      let s' := { s with is_connected := s.had_at_least_one_block }
      if s'.is_connected then .connected s'
      else
        match evs with
        | [] => .pending
        | e :: rest => connectWait (applyEvent s' e) rest

/-- `GeckoSpa.connect` (spa.py lines 202-243): runs the wait loop; on the
loop exiting connected it builds the accessor table (`_build_accessors`)
and returns the connected spa; the early `return` on a closed socket
yields no connection (`none`) and never builds the accessors. -/
def connect (s : WaitState) (evs : List SpaEvent) : Option WaitState :=
  match connectWait s evs with
  | .connected s' => some { s' with accessors_built := true }
  | _ => none

/-! ## Config-file response handling (src/geckolib/spa.py lines 109-152) -/

/-- Exceptions raised on the config-handling path.  `genericException`
models Python's bare `Exception(...)`; `connectionError` models the
builtin `ConnectionError` named by the spec's error taxonomy. -/
inductive RaisedError where
  | genericException (info : String)
  | connectionError (info : String)
deriving DecidableEq, Repr

/-- Python's `str.lower()` as used on ASCII platform names: lower-case
each character. -/
def lowerStr (s : String) : String := String.mk (s.data.map Char.toLower)

/-- `GeckoSpa._on_config_received` platform resolution (spa.py lines
112-125): scan every platform entry of the capability catalog, keeping the
last whose name matches `plateform_key` case-insensitively; if none
matched, `raise Exception(EXCEPTION_MESSAGE_NO_SPA_PACK.format(key))` —
a bare `Exception` carrying the key (the message template lives in the
absent const.py and is modelled as the key itself). -/
def on_config_received (catalog : List String) (key : String) :
    Except RaisedError String :=
  match (catalog.filter (fun n => lowerStr n = lowerStr key)).getLast? with
  | some name => .ok name
  | none => .error (.genericException key)

/-! ## AVERS/SVERS version protocol handler
(src/geckolib/driver/protocol/version.py) -/

/-- The 5-byte ASCII verb `b"AVERS"`. -/
def AVERS_VERB : List Nat := [65, 86, 69, 82, 83]

/-- The 5-byte ASCII verb `b"SVERS"`. -/
def SVERS_VERB : List Nat := [83, 86, 69, 82, 83]

/-- `struct.pack(">B", n)`: one unsigned byte; raises for out-of-range. -/
def packB (n : Nat) : Option (List Nat) :=
  if n < 256 then some [n] else none

/-- `struct.pack(">HBBHBB", ...)`: two big-endian groups of
(build:uint16, major:uint8, minor:uint8); raises for out-of-range. -/
def packVersionFormat (eb ema emi cb cma cmi : Nat) : Option (List Nat) :=
  if eb < 65536 ∧ ema < 256 ∧ emi < 256 ∧ cb < 65536 ∧ cma < 256 ∧ cmi < 256 then
    some [eb / 256, eb % 256, ema, emi, cb / 256, cb % 256, cma, cmi]
  else none

/-- `struct.unpack(">HBBHBB", bs)`: requires exactly 8 bytes. -/
def unpackVersionFormat (bs : List Nat) :
    Option (Nat × Nat × Nat × Nat × Nat × Nat) :=
  match bs with
  | [b0, b1, b2, b3, b4, b5, b6, b7] =>
    some (b0 * 256 + b1, b2, b3, b4 * 256 + b5, b6, b7)
  | _ => none

/-- `GeckoVersionProtocolHandler.request(seq)` content (version.py lines
16-20): the AVERS verb followed by the packed sequence byte. -/
def version_request (seq : Nat) : Option (List Nat) :=
  (packB seq).map (fun b => AVERS_VERB ++ b)

/-- `GeckoVersionProtocolHandler.response(...)` content (version.py lines
22-40): the SVERS verb followed by the packed `>HBBHBB` version struct. -/
def version_response (eb ema emi cb cma cmi : Nat) : Option (List Nat) :=
  (packVersionFormat eb ema emi cb cma cmi).map (fun b => SVERS_VERB ++ b)

/-- Decoded-field state of a `GeckoVersionProtocolHandler` (version.py
lines 42-45; the removal flag lives in the `GeckoPacketProtocolHandler`
base, initialized false and set by `handle` once the response arrives). -/
structure VersionHandler where
  en_build : Option Nat := none
  en_major : Option Nat := none
  en_minor : Option Nat := none
  co_build : Option Nat := none
  co_major : Option Nat := none
  co_minor : Option Nat := none
  sequence : Option Nat := none
  should_remove_handler : Bool := false
deriving DecidableEq, Repr

/-- `GeckoVersionProtocolHandler.can_handle` (version.py lines 47-50). -/
def can_handle (received : List Nat) : Bool :=
  AVERS_VERB.isPrefixOf received || SVERS_VERB.isPrefixOf received

/-- `GeckoVersionProtocolHandler.handle` (version.py lines 52-66):
`remainder = received_bytes[5:]`; an AVERS datagram stores the unpacked
sequence byte and returns; otherwise the datagram is taken as SVERS, the
six `>HBBHBB` fields are decoded from the remainder, and the removal flag
is set.  `none` models a raised `struct.error` on a malformed length. -/
def handle (h : VersionHandler) (received : List Nat) : Option VersionHandler :=
  if AVERS_VERB.isPrefixOf received then
    match received.drop 5 with
    | [b] => some { h with sequence := some b }
    | _ => none
  else
    match unpackVersionFormat (received.drop 5) with
    | some (eb, ema, emi, cb, cma, cmi) =>
      some { h with
        en_build := some eb, en_major := some ema, en_minor := some emi,
        co_build := some cb, co_major := some cma, co_minor := some cmi,
        should_remove_handler := true }
    | none => none

/-- True iff the event merges at least one partial-status segment into the
Status Buffer (a `partialStatus` event with a nonempty change list). -/
def mergesSegment : SpaEvent → Bool
  | .partialStatus changes => !changes.isEmpty
  | _ => false

/-! ## Concrete vectors from tests/test_accessor.py -/

/-- The MockSpa status block of tests/test_accessor.py: bytes 0-16 are
identity values, bytes 17-18 a temperature word, bytes 19-20 a sized
bitpos enum, bytes 21-22 an empty sized bitpos enum. -/
def testBuffer : List Nat :=
  [0, 1, 2, 3, 4, 5, 6, 7, 8, 9, 10, 11, 12, 13, 14, 15, 16,
   0x02, 0xBE, 0x11, 0x70, 0x00, 0x00]

/-- The PackType item list of tests/test_accessor.py. -/
def packTypeItems : List String :=
  ["Unknown", "inXE", "MasIBC", "MIA", "DJS4", "inClear", "inXM", "K600",
   "inTerface", "inTouch", "inYT", "K800", "inYJ"]

/-- The pump item list `OFF|LO|HI` of tests/test_accessor.py. -/
def pumpItems : List String := ["OFF", "LO", "HI"]

/-- `<PackBootRev Type="Byte" Pos="5" />` (no RW attribute). -/
def fPackBootRev : FieldDescriptor :=
  ⟨"PackBootRev", .byte, 5, none, none, [], false⟩

/-- `<RealSetPointG Type="Word" Pos="17" RW="ALL"/>`. -/
def fRealSetPointG : FieldDescriptor :=
  ⟨"RealSetPointG", .word, 17, none, none, [], true⟩

/-- `<PackType Type="Enum" Pos="6" Items="..." RW="ALL"/>`. -/
def fPackType : FieldDescriptor :=
  ⟨"PackType", .enum, 6, none, none, packTypeItems, true⟩

/-- `<RelayStuck Type="Bool" Pos="2" BitPos="6" RW="ALL" />`. -/
def fRelayStuck : FieldDescriptor :=
  ⟨"RelayStuck", .bool, 2, some 6, none, [], true⟩

/-- `<UdP3 Type="Enum" Pos="3" BitPos="4" Items="OFF|LO|HI" RW="ALL" />`
(no explicit width; it defaults to `ceilLog2 3 = 2`). -/
def fUdP3 : FieldDescriptor :=
  ⟨"UdP3", .enum, 3, some 4, none, pumpItems, true⟩

/-- `<UdP2 Type="Enum" Pos="19" BitPos="12" Size="2" Items="OFF|LO|HI"
RW="ALL" />`. -/
def fUdP2sized : FieldDescriptor :=
  ⟨"UdP2", .enum, 19, some 12, some 2, pumpItems, true⟩

/-- `<UdP1 Type="Enum" Pos="21" BitPos="14" Size="2" Items="OFF|LO|HI"
RW="ALL" />` of test_multiple_write_bitpos_enum. -/
def fUdP1at21 : FieldDescriptor :=
  ⟨"UdP1", .enum, 21, some 14, some 2, pumpItems, true⟩

/-- `<UdP2 Type="Enum" Pos="21" BitPos="12" Size="2" Items="OFF|LO|HI"
RW="ALL" />` of test_multiple_write_bitpos_enum. -/
def fUdP2at21 : FieldDescriptor :=
  ⟨"UdP2", .enum, 21, some 12, some 2, pumpItems, true⟩

/-- A fresh wait state entering the `connect()` loop: empty 23-byte
buffer mirror, socket open, nothing merged yet. -/
def initialWaitState : WaitState :=
  ⟨List.replicate 23 0, false, true, false, false⟩

/-! ## Byte-sequence lemmas -/

theorem toBytesBE_length (n x : Nat) : (toBytesBE n x).length = n := by
  induction n generalizing x with
  | zero => rfl
  | succ n ih => simp [toBytesBE, ih]

theorem fromBytesBE_append_singleton (bs : List Nat) (b : Nat) :
    fromBytesBE (bs ++ [b]) = fromBytesBE bs * 256 + b := by
  simp [fromBytesBE, List.foldl_append]

theorem pow_mul_succ_eq (n : Nat) : 2 ^ (8 * (n + 1)) = 2 ^ (8 * n) * 256 := by
  rw [show 8 * (n + 1) = 8 * n + 8 by omega, pow_add]
  norm_num

theorem fromBytesBE_toBytesBE {n x : Nat} (h : x < 2 ^ (8 * n)) :
    fromBytesBE (toBytesBE n x) = x := by
  induction n generalizing x with
  | zero =>
    have hx : x = 0 := by simpa using h
    simp [hx, toBytesBE, fromBytesBE]
  | succ n ih =>
    rw [pow_mul_succ_eq] at h
    have hdiv : x / 256 < 2 ^ (8 * n) := by omega
    rw [toBytesBE, fromBytesBE_append_singleton, ih hdiv]
    omega

theorem mem_toBytesBE_lt {n x b : Nat} (h : b ∈ toBytesBE n x) : b < 256 := by
  induction n generalizing x with
  | zero => exact absurd h (by simp [toBytesBE])
  | succ n ih =>
    rw [toBytesBE, List.mem_append, List.mem_singleton] at h
    rcases h with h | h
    · exact ih h
    · omega

theorem fromBytesBE_lt_two_pow {bs : List Nat} (h : ∀ b ∈ bs, b < 256) :
    fromBytesBE bs < 2 ^ (8 * bs.length) := by
  induction bs using List.reverseRecOn with
  | nil => simp [fromBytesBE]
  | append_singleton bs b ih =>
    have h1 : fromBytesBE bs < 2 ^ (8 * bs.length) :=
      ih (fun c hc => h c (by simp [hc]))
    have h2 : b < 256 := h b (by simp)
    rw [fromBytesBE_append_singleton]
    have hlen : (bs ++ [b]).length = bs.length + 1 := by simp
    rw [hlen, pow_mul_succ_eq]
    omega

theorem toBytesBE_fromBytesBE {bs : List Nat} (h : ∀ b ∈ bs, b < 256) :
    toBytesBE bs.length (fromBytesBE bs) = bs := by
  induction bs using List.reverseRecOn with
  | nil => rfl
  | append_singleton bs b ih =>
    have h1 : ∀ c ∈ bs, c < 256 := fun c hc => h c (by simp [hc])
    have h2 : b < 256 := h b (by simp)
    have hlen : (bs ++ [b]).length = bs.length + 1 := by simp
    rw [hlen, fromBytesBE_append_singleton, toBytesBE]
    have hd : (fromBytesBE bs * 256 + b) / 256 = fromBytesBE bs := by omega
    have hm : (fromBytesBE bs * 256 + b) % 256 = b := by omega
    rw [hd, hm, ih h1]

/-! ## Buffer splicing lemmas -/

theorem replace_self {buf : List Nat} {off n : Nat} (h : off + n ≤ buf.length) :
    replace_status_block_segment buf off ((buf.drop off).take n) = buf := by
  unfold replace_status_block_segment
  have hlen : ((buf.drop off).take n).length = n := by
    rw [List.length_take, List.length_drop]
    omega
  rw [hlen]
  have hdd : buf.drop (off + n) = (buf.drop off).drop n := by
    rw [List.drop_drop]
  rw [hdd, List.append_assoc, List.take_append_drop, List.take_append_drop]

theorem length_replace {buf data : List Nat} {off : Nat}
    (h : off + data.length ≤ buf.length) :
    (replace_status_block_segment buf off data).length = buf.length := by
  simp [replace_status_block_segment]
  omega

theorem mem_replace_lt {buf data : List Nat} {off : Nat}
    (hbuf : ∀ b ∈ buf, b < 256) (hdata : ∀ b ∈ data, b < 256) :
    ∀ b ∈ replace_status_block_segment buf off data, b < 256 := by
  intro b hb
  simp only [replace_status_block_segment, List.mem_append] at hb
  rcases hb with (hb | hb) | hb
  · exact hbuf b (List.mem_of_mem_take hb)
  · exact hdata b hb
  · exact hbuf b (List.mem_of_mem_drop hb)

theorem window_of_replace {buf data : List Nat} {off : Nat}
    (hoff : off ≤ buf.length) :
    ((replace_status_block_segment buf off data).drop off).take data.length
      = data := by
  unfold replace_status_block_segment
  rw [List.append_assoc, List.drop_left' (by simp [hoff] : (buf.take off).length = off)]
  exact List.take_left _ _

theorem window_of_replace' {buf data : List Nat} {off n : Nat}
    (hoff : off ≤ buf.length) (hn : n = data.length) :
    ((replace_status_block_segment buf off data).drop off).take n = data := by
  subst hn
  exact window_of_replace hoff

theorem readWindow_lt_two_pow {buf : List Nat} {off n : Nat}
    (hbuf : ∀ b ∈ buf, b < 256) :
    readWindow buf off n < 2 ^ (8 * n) := by
  unfold readWindow
  have hmem : ∀ b ∈ (buf.drop off).take n, b < 256 := fun b hb =>
    hbuf b (List.mem_of_mem_drop (List.mem_of_mem_take hb))
  have hlen : ((buf.drop off).take n).length ≤ n := by simp
  calc fromBytesBE ((buf.drop off).take n)
      < 2 ^ (8 * ((buf.drop off).take n).length) := fromBytesBE_lt_two_pow hmem
    _ ≤ 2 ^ (8 * n) := Nat.pow_le_pow_right (by omega) (by omega)

theorem readWindow_writeWindow {buf : List Nat} {off n x : Nat}
    (hlen : off + n ≤ buf.length) (hx : x < 2 ^ (8 * n)) :
    readWindow (writeWindow buf off n x) off n = x := by
  unfold readWindow writeWindow
  rw [window_of_replace' (by omega) (toBytesBE_length n x).symm]
  exact fromBytesBE_toBytesBE hx

theorem writeWindow_readWindow {buf : List Nat} {off n : Nat}
    (hbuf : ∀ b ∈ buf, b < 256) (hlen : off + n ≤ buf.length) :
    writeWindow buf off n (readWindow buf off n) = buf := by
  unfold writeWindow readWindow
  have hwlen : ((buf.drop off).take n).length = n := by
    simp
    omega
  have hmem : ∀ b ∈ (buf.drop off).take n, b < 256 := fun b hb =>
    hbuf b (List.mem_of_mem_drop (List.mem_of_mem_take hb))
  have key := toBytesBE_fromBytesBE hmem
  rw [hwlen] at key
  rw [key]
  exact replace_self hlen

/-! ## Read-modify-write bit lemmas -/

theorem shiftLeft_lt_two_pow {x o w n : Nat} (hx : x < 2 ^ w)
    (h : o + w ≤ 8 * n) : x <<< o < 2 ^ (8 * n) := by
  rw [Nat.shiftLeft_eq]
  calc x * 2 ^ o < 2 ^ w * 2 ^ o :=
        (Nat.mul_lt_mul_right (Nat.two_pow_pos o)).mpr hx
    _ = 2 ^ (w + o) := (pow_add 2 w o).symm
    _ ≤ 2 ^ (8 * n) := Nat.pow_le_pow_right (by omega) (by omega)

theorem testBit_rmw_inside {v o w n i : Nat} (k : Nat) (hk : k < w)
    (how : o + w ≤ 8 * n) :
    (rmw v o w n i).testBit (o + k) = i.testBit k := by
  unfold rmw
  have h1 : decide (o + k < 8 * n) = true := decide_eq_true (by omega)
  have h2 : decide (o + k ≥ o) = true := decide_eq_true (by omega)
  have h3 : o + k - o = k := by omega
  have h4 : decide (k < w) = true := decide_eq_true hk
  simp only [Nat.testBit_or, Nat.testBit_and, Nat.testBit_xor,
    Nat.testBit_shiftLeft, Nat.testBit_two_pow_sub_one, h1, h2, h3, h4]
  simp

theorem testBit_rmw_outside {v o w n i : Nat} (k : Nat)
    (hk : k < o ∨ o + w ≤ k) (hkn : k < 8 * n) (hi : i < 2 ^ w) :
    (rmw v o w n i).testBit k = v.testBit k := by
  unfold rmw
  have h1 : decide (k < 8 * n) = true := decide_eq_true hkn
  simp only [Nat.testBit_or, Nat.testBit_and, Nat.testBit_xor,
    Nat.testBit_shiftLeft, Nat.testBit_two_pow_sub_one, h1]
  rcases hk with hk | hk
  · have h2 : decide (k ≥ o) = false := decide_eq_false (by omega)
    simp [h2]
  · have h2 : decide (k ≥ o) = true := decide_eq_true (by omega)
    have h3 : decide (k - o < w) = false := decide_eq_false (by omega)
    have h4 : i.testBit (k - o) = false :=
      Nat.testBit_lt_two_pow
        (lt_of_lt_of_le hi (Nat.pow_le_pow_right (by omega) (by omega)))
    simp [h2, h3, h4]

theorem rmw_lt {o w n : Nat} (v i : Nat) (hi : i < 2 ^ w)
    (how : o + w ≤ 8 * n) : rmw v o w n i < 2 ^ (8 * n) := by
  unfold rmw
  apply Nat.or_lt_two_pow
  · apply Nat.and_lt_two_pow
    apply Nat.xor_lt_two_pow
    · have := Nat.two_pow_pos (8 * n)
      omega
    · exact shiftLeft_lt_two_pow (by have := Nat.two_pow_pos w; omega) how
  · exact shiftLeft_lt_two_pow hi how

theorem extract_rmw {v o w n i : Nat} (hi : i < 2 ^ w) (how : o + w ≤ 8 * n) :
    ((rmw v o w n i) >>> o) &&& (2 ^ w - 1) = i := by
  apply Nat.eq_of_testBit_eq
  intro j
  simp only [Nat.testBit_and, Nat.testBit_shiftRight, Nat.testBit_two_pow_sub_one]
  by_cases hj : j < w
  · rw [testBit_rmw_inside j hj how]
    simp [hj]
  · have h1 : i.testBit j = false :=
      Nat.testBit_lt_two_pow
        (lt_of_lt_of_le hi (Nat.pow_le_pow_right (by omega) (by omega)))
    simp [hj, h1]

theorem rmw_id {v o w n : Nat} (how : o + w ≤ 8 * n) (hv : v < 2 ^ (8 * n)) :
    rmw v o w n ((v >>> o) &&& (2 ^ w - 1)) = v := by
  have hi : (v >>> o) &&& (2 ^ w - 1) < 2 ^ w :=
    Nat.and_lt_two_pow _ (by have := Nat.two_pow_pos w; omega)
  apply Nat.eq_of_testBit_eq
  intro k
  by_cases hk8 : k < 8 * n
  · by_cases hko : k < o
    · rw [testBit_rmw_outside k (Or.inl hko) hk8 hi]
    · by_cases hkw : k < o + w
      · rw [show k = o + (k - o) from by omega, testBit_rmw_inside (k - o) (by omega) how]
        simp only [Nat.testBit_and, Nat.testBit_shiftRight, Nat.testBit_two_pow_sub_one]
        simp [show k - o < w from by omega]
      · rw [testBit_rmw_outside k (Or.inr (by omega)) hk8 hi]
  · rw [Nat.testBit_lt_two_pow
        (lt_of_lt_of_le (rmw_lt v _ hi how) (Nat.pow_le_pow_right (by omega) (by omega))),
      Nat.testBit_lt_two_pow
        (lt_of_lt_of_le hv (Nat.pow_le_pow_right (by omega) (by omega)))]

/-! ## Codec-level lemmas -/

theorem ceilLog2_spec (n : Nat) :
    n ≤ 2 ^ ceilLog2 n ∧ ∀ w, n ≤ 2 ^ w → ceilLog2 n ≤ w := by
  unfold ceilLog2
  have hex : ∃ x ∈ List.range (n + 1), (fun w => decide (n ≤ 2 ^ w)) x = true := by
    refine ⟨n, List.mem_range.mpr (by omega), ?_⟩
    simpa using Nat.le_of_lt (Nat.lt_two_pow n)
  have hlt := List.findIdx_lt_length_of_exists hex
  constructor
  · have hp := List.findIdx_getElem (w := hlt)
    simpa using hp
  · intro w hw
    by_contra hcon
    push_neg at hcon
    have hnp := List.not_of_lt_findIdx hcon
    simp at hnp
    omega

theorem effBitPos_byteSpan_bound {f : FieldDescriptor} {o : Nat}
    (h : f.effBitPos = some o) : o + f.effBitWidth ≤ 8 * f.byteSpan := by
  unfold FieldDescriptor.byteSpan
  rw [h]
  dsimp only
  omega

theorem setRaw_getRawValue {f : FieldDescriptor} {buf : List Nat}
    (hbuf : ∀ b ∈ buf, b < 256)
    (hlen : f.byte_offset + f.byteSpan ≤ buf.length) :
    setRaw f buf (getRawValue f buf) = buf := by
  unfold setRaw getRawValue
  cases hbp : f.effBitPos with
  | none =>
    simp only [hbp]
    exact writeWindow_readWindow hbuf hlen
  | some o =>
    simp only [hbp]
    rw [rmw_id (effBitPos_byteSpan_bound hbp) (readWindow_lt_two_pow hbuf)]
    exact writeWindow_readWindow hbuf hlen

theorem getRawValue_bool_lt {f : FieldDescriptor} (hk : f.kind = .bool)
    (buf : List Nat) : getRawValue f buf < 2 := by
  have hw : f.effBitWidth = 1 := by
    unfold FieldDescriptor.effBitWidth
    rw [hk]
  have hex : ∃ o, f.effBitPos = some o := by
    unfold FieldDescriptor.effBitPos
    rw [hk]
    cases f.bit_offset with
    | none => exact ⟨0, rfl⟩
    | some a => exact ⟨a, rfl⟩
  obtain ⟨o, ho⟩ := hex
  unfold getRawValue
  rw [ho, hw]
  have h2 : (2 : Nat) ^ 1 - 1 < 2 ^ 1 := by norm_num
  have := Nat.and_lt_two_pow (readWindow buf f.byte_offset f.byteSpan >>> o) h2
  simpa using this

/-! ## Lemmas about `idxOf?` -/

theorem idxOf?_get? {s : String} {l : List String} {i : Nat}
    (h : idxOf? s l = some i) : l.get? i = some s := by
  induction l generalizing i with
  | nil => exact absurd h (by simp [idxOf?])
  | cons x xs ih =>
    rw [idxOf?] at h
    by_cases hx : x = s
    · rw [if_pos hx] at h
      injection h with h
      subst h
      simp [hx]
    · rw [if_neg hx] at h
      obtain ⟨j, hj, hji⟩ := Option.map_eq_some'.mp h
      subst hji
      simpa using ih hj

theorem idxOf?_eq_none_iff {s : String} {l : List String} :
    idxOf? s l = none ↔ s ∉ l := by
  induction l with
  | nil => simp [idxOf?]
  | cons x xs ih =>
    rw [idxOf?]
    by_cases hx : x = s
    · simp [hx]
    · have hsx : ¬s = x := fun h => hx h.symm
      simp [hx, Option.map_eq_none', ih, hsx]

theorem nodup_idxOf?_of_get? {l : List String} {i : Nat} {s : String}
    (hnd : l.Nodup) (h : l.get? i = some s) : idxOf? s l = some i := by
  induction l generalizing i with
  | nil => exact absurd h (by simp)
  | cons x xs ih =>
    cases i with
    | zero =>
      simp at h
      simp [idxOf?, h]
    | succ i =>
      rw [List.get?_cons_succ] at h
      have hnd' : xs.Nodup := (List.nodup_cons.mp hnd).2
      have hxmem : x ∉ xs := (List.nodup_cons.mp hnd).1
      have hxs : ¬x = s := by
        intro he
        subst he
        exact hxmem (List.get?_mem h)
      rw [idxOf?, if_neg hxs, ih hnd' h]
      rfl

theorem resolveValue_get {f : FieldDescriptor} {buf : List Nat} {v : GValue}
    (hnd : f.item_list.Nodup) (hget : get f buf = .ok v) :
    resolveValue f v = .ok (getRawValue f buf) := by
  unfold get at hget
  cases hk : f.kind with
  | bool =>
    rw [hk] at hget
    dsimp only at hget
    injection hget with hget
    subst hget
    unfold resolveValue
    rw [hk]
    dsimp only
    have hlt := getRawValue_bool_lt hk buf
    have h01 : getRawValue f buf = 0 ∨ getRawValue f buf = 1 := by omega
    rcases h01 with h | h <;> rw [h] <;> rfl
  | enum =>
    rw [hk] at hget
    dsimp only at hget
    cases hq : f.item_list.get? (getRawValue f buf) with
    | none => rw [hq] at hget; exact absurd hget (by simp)
    | some s =>
      rw [hq] at hget
      injection hget with hget
      subst hget
      unfold resolveValue
      rw [hk]
      dsimp only
      rw [nodup_idxOf?_of_get? hnd hq]
  | byte =>
    rw [hk] at hget
    dsimp only at hget
    injection hget with hget
    subst hget
    unfold resolveValue
    rw [hk]
  | word =>
    rw [hk] at hget
    dsimp only at hget
    injection hget with hget
    subst hget
    unfold resolveValue
    rw [hk]

/-- C2: for every field with `writable = true`, writing back the value just
read — `set(field, buffer, get(field, buffer))` — leaves the Status Buffer
byte-for-byte unchanged.  The hypotheses are the Status Buffer and schema
invariants of spec section 3: the buffer holds bytes, the field's byte span
lies within the buffer, and the enum item names are distinct. -/
theorem set_of_get_leaves_buffer_unchanged
    (f : FieldDescriptor) (buf : List Nat) (v : GValue)
    (hw : f.writable = true)
    (hbytes : ∀ b ∈ buf, b < 256)
    (hlen : f.byte_offset + f.byteSpan ≤ buf.length)
    (hnd : f.item_list.Nodup)
    (hget : get f buf = .ok v) :
    set f buf v = .ok buf := by
  unfold set
  rw [hw, if_pos rfl, resolveValue_get hnd hget]
  dsimp only
  rw [setRaw_getRawValue hbytes hlen]

theorem length_writeWindow {buf : List Nat} {off n x : Nat}
    (h : off + n ≤ buf.length) :
    (writeWindow buf off n x).length = buf.length := by
  unfold writeWindow
  exact length_replace (by rw [toBytesBE_length]; exact h)

theorem mem_writeWindow_lt {buf : List Nat} {off n x : Nat}
    (hbuf : ∀ b ∈ buf, b < 256) :
    ∀ b ∈ writeWindow buf off n x, b < 256 := by
  unfold writeWindow
  exact mem_replace_lt hbuf (fun b hb => mem_toBytesBE_lt hb)

theorem getRawValue_bitpos {f : FieldDescriptor} {o : Nat} (buf : List Nat)
    (hbp : f.effBitPos = some o) :
    getRawValue f buf
      = (readWindow buf f.byte_offset f.byteSpan >>> o)
          &&& (2 ^ f.effBitWidth - 1) := by
  unfold getRawValue
  rw [hbp]

theorem setRaw_bitpos {f : FieldDescriptor} {o : Nat} (buf : List Nat) (i : Nat)
    (hbp : f.effBitPos = some o) :
    setRaw f buf i
      = writeWindow buf f.byte_offset f.byteSpan
          (rmw (readWindow buf f.byte_offset f.byteSpan) o f.effBitWidth
            f.byteSpan i) := by
  unfold setRaw
  rw [hbp]

theorem set_enum_eq {f : FieldDescriptor} {s : String} {i : Nat}
    (buf : List Nat) (hk : f.kind = .enum) (hw : f.writable = true)
    (hi : idxOf? s f.item_list = some i) :
    set f buf (.str s) = .ok (setRaw f buf i) := by
  unfold set resolveValue
  rw [hw, if_pos rfl, hk]
  dsimp only
  rw [hi]

theorem get_enum_of_get? {f : FieldDescriptor} {buf : List Nat} {s : String}
    (hk : f.kind = .enum)
    (hq : f.item_list.get? (getRawValue f buf) = some s) :
    get f buf = .ok (.str s) := by
  unfold get
  rw [hk]
  dsimp only
  rw [hq]

/-! ## Claim theorems for the Struct Field Codec -/

/-- C6: for every field whose descriptor lacks the write-permission
attribute (`writable = false`), `set` fails with `PermissionError`.  The
model returns the error without producing any buffer, so the Status Buffer
is left unchanged. -/
theorem set_not_writable_permissionError
    (f : FieldDescriptor) (buf : List Nat) (v : GValue)
    (hw : f.writable = false) :
    set f buf v = .error .permissionError := by
  unfold set
  rw [hw, if_neg (by simp)]

/-- C7: for every Enum field, `set` with a value that is not a member of
`item_list` fails with `ValueError` (producing no buffer, so the Status
Buffer is unchanged); `set` with a member value resolves it to its 0-based
index in `item_list` before encoding (the encode-and-splice step `setRaw`
receives exactly that index, and the index points back at the member). -/
theorem set_enum_member_resolution
    (f : FieldDescriptor) (buf : List Nat) (s : String)
    (hk : f.kind = .enum) (hw : f.writable = true) :
    (s ∉ f.item_list → set f buf (.str s) = .error .valueError) ∧
    (∀ i, idxOf? s f.item_list = some i →
      set f buf (.str s) = .ok (setRaw f buf i)
        ∧ f.item_list.get? i = some s) := by
  constructor
  · intro hmem
    unfold set resolveValue
    rw [hw, if_pos rfl, hk]
    dsimp only
    rw [idxOf?_eq_none_iff.mpr hmem]
  · intro i hi
    exact ⟨set_enum_eq buf hk hw hi, idxOf?_get? hi⟩

/-- C8: for every bit-positioned Enum field with no explicit `bit_width`,
the width used for masking on both `get` and `set` (its `effBitWidth`,
which both `getRawValue` and `setRaw` mask with) equals
`ceil(log2(len(item_list)))`: it is the least `w` with
`item_list.length ≤ 2 ^ w`, and the field behaves on `get` and `set`
exactly as the same field with `bit_width` explicitly set to that value. -/
theorem enum_default_bit_width
    (nm : String) (off o : Nat) (items : List String) (wr : Bool)
    (buf : List Nat) (v : GValue) :
    (FieldDescriptor.mk nm .enum off (some o) none items wr).effBitWidth
        = ceilLog2 items.length
    ∧ items.length ≤ 2 ^ (FieldDescriptor.mk nm .enum off (some o) none
        items wr).effBitWidth
    ∧ (∀ w, items.length ≤ 2 ^ w →
        (FieldDescriptor.mk nm .enum off (some o) none
          items wr).effBitWidth ≤ w)
    ∧ get (FieldDescriptor.mk nm .enum off (some o) none items wr) buf
        = get (FieldDescriptor.mk nm .enum off (some o)
            (some (ceilLog2 items.length)) items wr) buf
    ∧ set (FieldDescriptor.mk nm .enum off (some o) none items wr) buf v
        = set (FieldDescriptor.mk nm .enum off (some o)
            (some (ceilLog2 items.length)) items wr) buf v :=
  ⟨rfl, (ceilLog2_spec items.length).1, fun w hw =>
    (ceilLog2_spec items.length).2 w hw, rfl, rfl⟩

/-- C1: two writable bit-packed Enum fields whose byte spans coincide but
whose bit ranges `[bit_offset, bit_offset + bit_width)` are disjoint do not
clobber each other: writing field 1, then writing field 2, then reading
both yields each field's last-written value, and the second bit-packed set
clears exactly the bits of the written field — every window bit outside
`[o2, o2 + width2)` survives the write unchanged.  This covers the spec's
example of two 2-bit enum fields at bit offsets 12 and 14 of the same
2-byte window. -/
theorem bitpacked_disjoint_writes_preserve
    (f1 f2 : FieldDescriptor) (buf : List Nat) (s1 s2 : String)
    (i1 i2 o1 o2 : Nat)
    (hk1 : f1.kind = .enum) (hk2 : f2.kind = .enum)
    (hw1 : f1.writable = true) (hw2 : f2.writable = true)
    (hoff : f2.byte_offset = f1.byte_offset)
    (hbp1 : f1.effBitPos = some o1) (hbp2 : f2.effBitPos = some o2)
    (hspan : f2.byteSpan = f1.byteSpan)
    (hdisj : o1 + f1.effBitWidth ≤ o2 ∨ o2 + f2.effBitWidth ≤ o1)
    (hi1 : idxOf? s1 f1.item_list = some i1)
    (hi2 : idxOf? s2 f2.item_list = some i2)
    (hfit1 : i1 < 2 ^ f1.effBitWidth) (hfit2 : i2 < 2 ^ f2.effBitWidth)
    (hbytes : ∀ b ∈ buf, b < 256)
    (hlen : f1.byte_offset + f1.byteSpan ≤ buf.length) :
    ∃ buf1 buf2,
      set f1 buf (.str s1) = .ok buf1 ∧
      set f2 buf1 (.str s2) = .ok buf2 ∧
      get f1 buf2 = .ok (.str s1) ∧
      get f2 buf2 = .ok (.str s2) ∧
      (∀ k, k < 8 * f2.byteSpan → k < o2 ∨ o2 + f2.effBitWidth ≤ k →
        (readWindow buf2 f2.byte_offset f2.byteSpan).testBit k
          = (readWindow buf1 f2.byte_offset f2.byteSpan).testBit k) := by
  have bound1 : o1 + f1.effBitWidth ≤ 8 * f1.byteSpan :=
    effBitPos_byteSpan_bound hbp1
  have bound2 : o2 + f2.effBitWidth ≤ 8 * f1.byteSpan := by
    have := effBitPos_byteSpan_bound hbp2
    rwa [hspan] at this
  have hset1 : set f1 buf (.str s1) = .ok (setRaw f1 buf i1) :=
    set_enum_eq buf hk1 hw1 hi1
  have hsr1 : setRaw f1 buf i1
      = writeWindow buf f1.byte_offset f1.byteSpan
          (rmw (readWindow buf f1.byte_offset f1.byteSpan) o1
            f1.effBitWidth f1.byteSpan i1) :=
    setRaw_bitpos buf i1 hbp1
  have hx1lt : rmw (readWindow buf f1.byte_offset f1.byteSpan) o1
      f1.effBitWidth f1.byteSpan i1 < 2 ^ (8 * f1.byteSpan) :=
    rmw_lt _ _ hfit1 bound1
  have hlen1 : (setRaw f1 buf i1).length = buf.length := by
    rw [hsr1]
    exact length_writeWindow hlen
  have hbytes1 : ∀ b ∈ setRaw f1 buf i1, b < 256 := by
    rw [hsr1]
    exact mem_writeWindow_lt hbytes
  have hread1 : readWindow (setRaw f1 buf i1) f1.byte_offset f1.byteSpan
      = rmw (readWindow buf f1.byte_offset f1.byteSpan) o1
          f1.effBitWidth f1.byteSpan i1 := by
    rw [hsr1]
    exact readWindow_writeWindow hlen hx1lt
  have hset2 : set f2 (setRaw f1 buf i1) (.str s2)
      = .ok (setRaw f2 (setRaw f1 buf i1) i2) :=
    set_enum_eq _ hk2 hw2 hi2
  have hsr2 : setRaw f2 (setRaw f1 buf i1) i2
      = writeWindow (setRaw f1 buf i1) f1.byte_offset f1.byteSpan
          (rmw (rmw (readWindow buf f1.byte_offset f1.byteSpan) o1
              f1.effBitWidth f1.byteSpan i1) o2
            f2.effBitWidth f1.byteSpan i2) := by
    rw [setRaw_bitpos _ i2 hbp2, hoff, hspan, hread1]
  have hx2lt : rmw (rmw (readWindow buf f1.byte_offset f1.byteSpan) o1
      f1.effBitWidth f1.byteSpan i1) o2 f2.effBitWidth f1.byteSpan i2
      < 2 ^ (8 * f1.byteSpan) :=
    rmw_lt _ _ hfit2 bound2
  have hread2 : readWindow (setRaw f2 (setRaw f1 buf i1) i2)
      f1.byte_offset f1.byteSpan
      = rmw (rmw (readWindow buf f1.byte_offset f1.byteSpan) o1
          f1.effBitWidth f1.byteSpan i1) o2 f2.effBitWidth f1.byteSpan i2 := by
    rw [hsr2]
    exact readWindow_writeWindow (by rw [hlen1]; exact hlen) hx2lt
  have hraw2 : getRawValue f2 (setRaw f2 (setRaw f1 buf i1) i2) = i2 := by
    rw [getRawValue_bitpos _ hbp2, hoff, hspan, hread2]
    exact extract_rmw hfit2 bound2
  have hraw1 : getRawValue f1 (setRaw f2 (setRaw f1 buf i1) i2) = i1 := by
    rw [getRawValue_bitpos _ hbp1, hread2]
    apply Nat.eq_of_testBit_eq
    intro j
    simp only [Nat.testBit_and, Nat.testBit_shiftRight,
      Nat.testBit_two_pow_sub_one]
    by_cases hj : j < f1.effBitWidth
    · have hk8 : o1 + j < 8 * f1.byteSpan := by omega
      have houts : o1 + j < o2 ∨ o2 + f2.effBitWidth ≤ o1 + j := by
        rcases hdisj with h | h
        · exact Or.inl (by omega)
        · exact Or.inr (by omega)
      rw [testBit_rmw_outside (o1 + j) houts hk8 hfit2,
        testBit_rmw_inside j hj bound1]
      simp [hj]
    · have hfalse : i1.testBit j = false :=
        Nat.testBit_lt_two_pow
          (lt_of_lt_of_le hfit1 (Nat.pow_le_pow_right (by omega) (by omega)))
      simp [hj, hfalse]
  refine ⟨setRaw f1 buf i1, setRaw f2 (setRaw f1 buf i1) i2,
    hset1, hset2, ?_, ?_, ?_⟩
  · exact get_enum_of_get? hk1 (by rw [hraw1]; exact idxOf?_get? hi1)
  · exact get_enum_of_get? hk2 (by rw [hraw2]; exact idxOf?_get? hi2)
  · intro k hk8 hkout
    rw [hoff, hspan, hread2, hread1]
    exact testBit_rmw_outside k hkout (by rwa [hspan] at hk8) hfit2

/-! ## Validation of the modelled codec against tests/test_accessor.py -/

theorem vector_read_byte : get fPackBootRev testBuffer = .ok (.num 5) := rfl

theorem vector_read_word : get fRealSetPointG testBuffer = .ok (.num 702) := rfl

theorem vector_write_word :
    set fRealSetPointG testBuffer (.num 726)
      = .ok [0, 1, 2, 3, 4, 5, 6, 7, 8, 9, 10, 11, 12, 13, 14, 15, 16,
          0x02, 0xD6, 0x11, 0x70, 0x00, 0x00] := rfl

theorem vector_read_enum : get fPackType testBuffer = .ok (.str "inXM") := rfl

theorem vector_write_enum :
    set fPackType testBuffer (.str "inYJ")
      = .ok [0, 1, 2, 3, 4, 5, 12, 7, 8, 9, 10, 11, 12, 13, 14, 15, 16,
          0x02, 0xBE, 0x11, 0x70, 0x00, 0x00] := rfl

theorem vector_read_bool : get fRelayStuck testBuffer = .ok (.bool false) := rfl

theorem vector_write_bool :
    set fRelayStuck testBuffer (.bool true)
      = .ok [0, 1, 0x42, 3, 4, 5, 6, 7, 8, 9, 10, 11, 12, 13, 14, 15, 16,
          0x02, 0xBE, 0x11, 0x70, 0x00, 0x00] := rfl

theorem vector_read_bitpos_enum : get fUdP3 testBuffer = .ok (.str "OFF") := rfl

theorem vector_write_bitpos_enum :
    set fUdP3 testBuffer (.str "HI")
      = .ok [0, 1, 2, 0x23, 4, 5, 6, 7, 8, 9, 10, 11, 12, 13, 14, 15, 16,
          0x02, 0xBE, 0x11, 0x70, 0x00, 0x00]
    ∧ set fUdP3 testBuffer (.str "LO")
      = .ok [0, 1, 2, 0x13, 4, 5, 6, 7, 8, 9, 10, 11, 12, 13, 14, 15, 16,
          0x02, 0xBE, 0x11, 0x70, 0x00, 0x00]
    ∧ set fUdP3 testBuffer (.str "OFF")
      = .ok [0, 1, 2, 0x03, 4, 5, 6, 7, 8, 9, 10, 11, 12, 13, 14, 15, 16,
          0x02, 0xBE, 0x11, 0x70, 0x00, 0x00] := ⟨rfl, rfl, rfl⟩

theorem vector_read_sized_bitpos_enum :
    get fUdP2sized testBuffer = .ok (.str "LO") := rfl

theorem vector_write_sized_bitpos_enum :
    set fUdP2sized testBuffer (.str "HI")
      = .ok [0, 1, 2, 3, 4, 5, 6, 7, 8, 9, 10, 11, 12, 13, 14, 15, 16,
          0x02, 0xBE, 0x21, 0x70, 0x00, 0x00] := rfl

theorem vector_multiple_write_bitpos_enum :
    set fUdP2at21 testBuffer (.str "HI")
      = .ok [0, 1, 2, 3, 4, 5, 6, 7, 8, 9, 10, 11, 12, 13, 14, 15, 16,
          0x02, 0xBE, 0x11, 0x70, 0x20, 0x00]
    ∧ set fUdP1at21
        [0, 1, 2, 3, 4, 5, 6, 7, 8, 9, 10, 11, 12, 13, 14, 15, 16,
         0x02, 0xBE, 0x11, 0x70, 0x20, 0x00] (.str "HI")
      = .ok [0, 1, 2, 3, 4, 5, 6, 7, 8, 9, 10, 11, 12, 13, 14, 15, 16,
          0x02, 0xBE, 0x11, 0x70, 0xA0, 0x00] := ⟨rfl, rfl⟩

/-! ## Witnesses for the codec claim theorems -/

theorem set_of_get_leaves_buffer_unchanged_witness :
    set fRealSetPointG testBuffer (.num 702) = .ok testBuffer :=
  set_of_get_leaves_buffer_unchanged fRealSetPointG testBuffer (.num 702)
    rfl (by decide) (by decide) (by decide) rfl

theorem set_not_writable_permissionError_witness :
    set fPackBootRev testBuffer (.num 6) = .error .permissionError :=
  set_not_writable_permissionError fPackBootRev testBuffer (.num 6) rfl

theorem set_enum_member_resolution_witness :
    set fPackType testBuffer (.str "Not A Member") = .error .valueError
    ∧ set fPackType testBuffer (.str "inYJ")
        = .ok (setRaw fPackType testBuffer 12) :=
  ⟨(set_enum_member_resolution fPackType testBuffer "Not A Member"
      rfl rfl).1 (by decide),
   ((set_enum_member_resolution fPackType testBuffer "inYJ"
      rfl rfl).2 12 (by decide)).1⟩

theorem bitpacked_disjoint_writes_preserve_witness :
    ∃ buf1 buf2,
      set fUdP2at21 testBuffer (.str "HI") = .ok buf1 ∧
      set fUdP1at21 buf1 (.str "HI") = .ok buf2 ∧
      get fUdP2at21 buf2 = .ok (.str "HI") ∧
      get fUdP1at21 buf2 = .ok (.str "HI") ∧
      (∀ k, k < 8 * fUdP1at21.byteSpan →
        k < 14 ∨ 14 + fUdP1at21.effBitWidth ≤ k →
        (readWindow buf2 fUdP1at21.byte_offset fUdP1at21.byteSpan).testBit k
          = (readWindow buf1 fUdP1at21.byte_offset
              fUdP1at21.byteSpan).testBit k) :=
  bitpacked_disjoint_writes_preserve fUdP2at21 fUdP1at21 testBuffer "HI" "HI"
    2 2 12 14 rfl rfl rfl rfl rfl rfl rfl (by decide)
    (Or.inl (by decide)) (by decide) (by decide) (by decide) (by decide)
    (by decide) (by decide)

/-! ## Claim theorems for the connect() handshake wait -/

/-- C3: during `connect()`, as soon as one partial-status event (with at
least one segment) is merged into the Status Buffer, the very next loop
check turns `is_connected` true and the wait returns connected — the
handshake advances to Connected and builds the accessor table — no matter
what further events (`evs`) would have followed and with no condition
relating the merged segment to the declared status byte range. -/
theorem connect_live_on_first_partial_segment
    (s : WaitState) (changes : List (Nat × List Nat)) (evs : List SpaEvent)
    (hopen : s.isopen = true) (hconn : s.is_connected = false)
    (hhad : s.had_at_least_one_block = false) (hne : changes ≠ []) :
    connectWait s (.partialStatus changes :: evs)
      = .connected
          { s with
            buffer := changes.foldl
              (fun b c => replace_status_block_segment b c.1 c.2) s.buffer,
            had_at_least_one_block := true,
            is_connected := true }
    ∧ connect s (.partialStatus changes :: evs)
      = some
          { s with
            buffer := changes.foldl
              (fun b c => replace_status_block_segment b c.1 c.2) s.buffer,
            had_at_least_one_block := true,
            is_connected := true,
            accessors_built := true } := by
  have hie : changes.isEmpty = false := by
    cases changes with
    | nil => exact absurd rfl hne
    | cons c cs => rfl
  obtain ⟨b, had, op, conn, acc⟩ := s
  simp only at hopen hconn hhad
  subst hopen
  subst hconn
  subst hhad
  constructor
  · simp [connectWait, applyEvent, hie]
  · unfold connect
    simp [connectWait, applyEvent, hie]

theorem connectWait_failed_of_close_before_merge
    (pre : List SpaEvent) :
    ∀ (s : WaitState) (post : List SpaEvent),
      s.is_connected = false → s.had_at_least_one_block = false →
      (∀ e ∈ pre, mergesSegment e = false) →
      connectWait s (pre ++ .close :: post) = .failed := by
  induction pre with
  | nil =>
    intro s post hconn hhad _
    obtain ⟨b, had, op, conn, acc⟩ := s
    simp only at hconn hhad
    subst hconn
    subst hhad
    cases op with
    | false => rw [connectWait]; simp
    | true => simp [connectWait, applyEvent]
  | cons e pre ih =>
    intro s post hconn hhad hpre
    obtain ⟨b, had, op, conn, acc⟩ := s
    simp only at hconn hhad
    subst hconn
    subst hhad
    cases op with
    | false => rw [connectWait]; simp
    | true =>
      have hstep : (applyEvent ⟨b, false, true, false, acc⟩ e).is_connected
            = false
          ∧ (applyEvent ⟨b, false, true, false, acc⟩ e).had_at_least_one_block
            = false := by
        cases e with
        | partialStatus changes =>
          have hm := hpre (.partialStatus changes) (by simp)
          simp only [mergesSegment] at hm
          unfold applyEvent
          exact ⟨rfl, by simp [hm]⟩
        | close => exact ⟨rfl, rfl⟩
        | other => exact ⟨rfl, rfl⟩
      have htail := ih (applyEvent ⟨b, false, true, false, acc⟩ e) post
        hstep.1 hstep.2 (fun x hx => hpre x (by simp [hx]))
      rw [List.cons_append, connectWait]
      simpa [applyEvent] using htail

/-- C4: if the underlying socket closes before any partial-status segment
has been merged, the `connect()` wait terminates with a failure: the loop
exits through the `if not self.isopen: return` path, `connect` yields no
connection (`none`), and the accessor table is never built. -/
theorem connect_fails_on_socket_close
    (s : WaitState) (pre post : List SpaEvent)
    (hconn : s.is_connected = false)
    (hhad : s.had_at_least_one_block = false)
    (hpre : ∀ e ∈ pre, mergesSegment e = false) :
    connectWait s (pre ++ .close :: post) = .failed
    ∧ connect s (pre ++ .close :: post) = none := by
  have h1 := connectWait_failed_of_close_before_merge pre s post hconn hhad hpre
  refine ⟨h1, ?_⟩
  unfold connect
  rw [h1]

theorem connect_live_on_first_partial_segment_witness :
    connectWait initialWaitState (.partialStatus [(5, [1, 2])] :: [])
      = .connected
          { initialWaitState with
            buffer := [(5, [1, 2])].foldl
              (fun b c => replace_status_block_segment b c.1 c.2)
              initialWaitState.buffer,
            had_at_least_one_block := true,
            is_connected := true }
    ∧ connect initialWaitState (.partialStatus [(5, [1, 2])] :: [])
      = some
          { initialWaitState with
            buffer := [(5, [1, 2])].foldl
              (fun b c => replace_status_block_segment b c.1 c.2)
              initialWaitState.buffer,
            had_at_least_one_block := true,
            is_connected := true,
            accessors_built := true } :=
  connect_live_on_first_partial_segment initialWaitState [(5, [1, 2])] []
    rfl rfl rfl (by decide)

theorem connect_fails_on_socket_close_witness :
    connectWait initialWaitState ([.other] ++ .close :: []) = .failed
    ∧ connect initialWaitState ([.other] ++ .close :: []) = none :=
  connect_fails_on_socket_close initialWaitState [.other] [] rfl rfl
    (by decide)

/-! ## Claim theorems for the config-file response and version handler -/

/-- C5 (counterexample): when the config-file response's platform key
matches no entry in the capability catalog, `_on_config_received` raises
Python's bare `Exception` (spa.py line 121), not a `ConnectionError`:
at the concrete catalog `["inXM"]` and key `"nope"` the raised error is
the generic exception and differs from a `ConnectionError`, refuting the
claim that this failure surfaces as a `ConnectionError`. -/
theorem config_unknown_platform_not_connectionError :
    on_config_received ["inXM"] "nope" = .error (.genericException "nope")
    ∧ on_config_received ["inXM"] "nope"
        ≠ .error (.connectionError "nope") := by
  refine ⟨rfl, ?_⟩
  intro hcontra
  rw [show on_config_received ["inXM"] "nope"
      = .error (.genericException "nope") from rfl] at hcontra
  injection hcontra with hraised
  exact absurd hraised (by simp)

/-- C5 (amended): when the config-file response's platform key matches no
capability-catalog entry (case-insensitively), the handshake fails fatally
by raising Python's generic `Exception` naming the platform key — not a
`ConnectionError`. -/
theorem config_unknown_platform_raises_generic_exception
    (catalog : List String) (key : String)
    (hnone : ∀ n ∈ catalog, lowerStr n ≠ lowerStr key) :
    on_config_received catalog key = .error (.genericException key) := by
  unfold on_config_received
  have hf : catalog.filter (fun n => lowerStr n = lowerStr key) = [] := by
    rw [List.filter_eq_nil_iff]
    intro a ha
    simp [hnone a ha]
  rw [hf]
  rfl

theorem config_unknown_platform_raises_generic_exception_witness :
    on_config_received ["inXM", "inYT"] "inXL"
      = .error (.genericException "inXL") :=
  config_unknown_platform_raises_generic_exception ["inXM", "inYT"] "inXL"
    (by decide)

/-- C9: the version exchange wire format.  A version request encodes as
the 5-byte ASCII verb AVERS followed by one unsigned sequence byte; a
version response encodes as the verb SVERS followed by the `>HBBHBB`
struct — big-endian (build:uint16, major:uint8, minor:uint8), firmware
group then controller-board group; and `handle` of an SVERS datagram
decodes exactly those six fields from the bytes after the verb (stated
both for arbitrary raw payload bytes and for the encoded response). -/
theorem version_wire_format
    (seq eb ema emi cb cma cmi : Nat) (h0 : VersionHandler)
    (hseq : seq < 256) (heb : eb < 65536) (hema : ema < 256)
    (hemi : emi < 256) (hcb : cb < 65536) (hcma : cma < 256)
    (hcmi : cmi < 256) :
    version_request seq = some (AVERS_VERB ++ [seq])
    ∧ version_response eb ema emi cb cma cmi
        = some (SVERS_VERB
            ++ [eb / 256, eb % 256, ema, emi, cb / 256, cb % 256, cma, cmi])
    ∧ (∀ b0 b1 b2 b3 b4 b5 b6 b7 : Nat,
        handle h0 (SVERS_VERB ++ [b0, b1, b2, b3, b4, b5, b6, b7])
          = some { h0 with
              en_build := some (b0 * 256 + b1), en_major := some b2,
              en_minor := some b3, co_build := some (b4 * 256 + b5),
              co_major := some b6, co_minor := some b7,
              should_remove_handler := true })
    ∧ handle h0 (SVERS_VERB
          ++ [eb / 256, eb % 256, ema, emi, cb / 256, cb % 256, cma, cmi])
        = some { h0 with
            en_build := some eb, en_major := some ema, en_minor := some emi,
            co_build := some cb, co_major := some cma, co_minor := some cmi,
            should_remove_handler := true } := by
  refine ⟨?_, ?_, ?_, ?_⟩
  · simp [version_request, packB, hseq]
  · simp [version_response, packVersionFormat,
      heb, hema, hemi, hcb, hcma, hcmi]
  · intro b0 b1 b2 b3 b4 b5 b6 b7
    rfl
  · have e1 : eb / 256 * 256 + eb % 256 = eb := by omega
    have e2 : cb / 256 * 256 + cb % 256 = cb := by omega
    have key : handle h0 (SVERS_VERB
        ++ [eb / 256, eb % 256, ema, emi, cb / 256, cb % 256, cma, cmi])
        = some { h0 with
            en_build := some (eb / 256 * 256 + eb % 256),
            en_major := some ema, en_minor := some emi,
            co_build := some (cb / 256 * 256 + cb % 256),
            co_major := some cma, co_minor := some cmi,
            should_remove_handler := true } := rfl
    rw [key, e1, e2]

theorem version_wire_format_witness :
    version_request 1 = some (AVERS_VERB ++ [1])
    ∧ version_response 618 1 2 619 3 4
        = some (SVERS_VERB
            ++ [618 / 256, 618 % 256, 1, 2, 619 / 256, 619 % 256, 3, 4])
    ∧ (∀ b0 b1 b2 b3 b4 b5 b6 b7 : Nat,
        handle ⟨none, none, none, none, none, none, none, false⟩
            (SVERS_VERB ++ [b0, b1, b2, b3, b4, b5, b6, b7])
          = some ⟨some (b0 * 256 + b1), some b2, some b3,
              some (b4 * 256 + b5), some b6, some b7, none, true⟩)
    ∧ handle ⟨none, none, none, none, none, none, none, false⟩
          (SVERS_VERB
            ++ [618 / 256, 618 % 256, 1, 2, 619 / 256, 619 % 256, 3, 4])
        = some ⟨some 618, some 1, some 2, some 619, some 3, some 4,
            none, true⟩ :=
  version_wire_format 1 618 1 2 619 3 4
    ⟨none, none, none, none, none, none, none, false⟩
    (by decide) (by decide) (by decide) (by decide) (by decide) (by decide)
    (by decide)

/-- C10: `handle` of a datagram beginning with the request verb AVERS (the
handler's own request echoed back) stores the 1-byte sequence number and
leaves the removal flag unset, so the handler remains registered; and for
any datagram the handler can handle, a `handle` call that turns the
removal flag on is one whose datagram begins with the response verb
SVERS. -/
theorem handle_avers_keeps_handler
    (h : VersionHandler) (seq : Nat) (d : List Nat) (h2 : VersionHandler)
    (hflag : h.should_remove_handler = false) :
    (handle h (AVERS_VERB ++ [seq]) = some { h with sequence := some seq }
      ∧ ({ h with sequence := some seq }
          : VersionHandler).should_remove_handler = false)
    ∧ (can_handle d = true → handle h d = some h2 →
        h2.should_remove_handler = true → SVERS_VERB.isPrefixOf d = true) := by
  refine ⟨⟨rfl, hflag⟩, ?_⟩
  intro hcan hh hfl2
  cases hav : AVERS_VERB.isPrefixOf d with
  | true =>
    exfalso
    unfold handle at hh
    rw [hav, if_pos rfl] at hh
    cases hd : d.drop 5 with
    | nil =>
      rw [hd] at hh
      exact absurd hh (by simp)
    | cons b tl =>
      cases tl with
      | nil =>
        rw [hd] at hh
        injection hh with hh2
        rw [← hh2] at hfl2
        dsimp only at hfl2
        rw [hflag] at hfl2
        exact absurd hfl2 (by simp)
      | cons c tl2 =>
        rw [hd] at hh
        exact absurd hh (by simp)
  | false =>
    unfold can_handle at hcan
    rw [hav] at hcan
    simpa using hcan

theorem handle_avers_keeps_handler_witness :
    (handle ⟨none, none, none, none, none, none, none, false⟩
        (AVERS_VERB ++ [9])
      = some ⟨none, none, none, none, none, none, some 9, false⟩
      ∧ (⟨none, none, none, none, none, none, some 9, false⟩
          : VersionHandler).should_remove_handler = false)
    ∧ (can_handle (SVERS_VERB ++ [2, 106, 1, 2, 2, 107, 3, 4]) = true →
        handle ⟨none, none, none, none, none, none, none, false⟩
            (SVERS_VERB ++ [2, 106, 1, 2, 2, 107, 3, 4])
          = some ⟨some 618, some 1, some 2, some 619, some 3, some 4,
              none, true⟩ →
        (⟨some 618, some 1, some 2, some 619, some 3, some 4, none, true⟩
            : VersionHandler).should_remove_handler = true →
        SVERS_VERB.isPrefixOf (SVERS_VERB ++ [2, 106, 1, 2, 2, 107, 3, 4])
          = true) :=
  handle_avers_keeps_handler
    ⟨none, none, none, none, none, none, none, false⟩ 9
    (SVERS_VERB ++ [2, 106, 1, 2, 2, 107, 3, 4])
    ⟨some 618, some 1, some 2, some 619, some 3, some 4, none, true⟩ rfl

end Geckolib
